import Mathlib

/-!
Verification development for the quiz backend's grading engine
(`app/api/v1/attempts.py`, function `submit_answer` and helper `_regex_matches`)
and the taxonomy-rollup statistics engine
(`app/services/stats_service.py`, `update_user_taxonomy_stats`;
`app/services/attempt_service.py`, `update_attempt_stats`).

Python `Decimal` values are modelled as `Rat`; `float` round-trips are modelled
as exact. A JSON value fed to `Decimal(...)`/`float(...)` is modelled by
`NumLit`: either a value that parses to a rational, or one whose conversion
raises. Uncaught Python exceptions escaping the grading block are modelled by
`Except Unit`. Python's `re` module and `difflib.SequenceMatcher.ratio` are
modelled as an abstract environment `GradeEnv` (the grading code only branches
on whether a search matched, errored, or found nothing, and on the similarity
value). String ids (UUIDs) are modelled as `String`.
-/

namespace UGC

/-- Outcome of `re.search(pattern, text)`: a match object (truthy), `None`,
or an `re.error` raised while compiling/executing the pattern. -/
inductive SearchOutcome where
  | matched
  | noMatch
  | err
deriving DecidableEq

/-- Abstract model of the impure collaborators of the grading code:
`re.search`, `bytes(p, "utf-8").decode("unicode_escape")` (which can raise,
hence `Option`), and `difflib.SequenceMatcher(a, b).ratio()`. -/
structure GradeEnv where
  search : String → String → SearchOutcome
  unicodeEscape : String → Option String
  similarity : String → String → Rat

/-- A JSON scalar destined for `Decimal(...)` or `float(...)`: either it
converts to a rational or the conversion raises. -/
inductive NumLit where
  | num (q : Rat)
  | bad
deriving DecidableEq

/-- Conversion `Decimal(x)` / `float(x)`: `some` the value, or `none` when it raises. -/
def NumLit.toDec : NumLit → Option Rat
  | .num q => some q
  | .bad => none

/-- One entry of `scoring["parts"]` as read by `submit_answer`
(`pr.get("type", "text")`, `pr.get("max_score", 1)`, etc.). -/
structure PartRule where
  type : Option String := none
  max_score : Option NumLit := none
  accepted_answers : List String := []
  pattern : Option String := none
  target : String := ""
  threshold : Option NumLit := none
  answer : Option NumLit := none
  tolerance : Option NumLit := none

/-- The `question.scoring` JSON dict, restricted to the keys the grading code
reads. -/
structure Scoring where
  parts : Option (List PartRule) := none
  accepted_answers : List String := []
  max_score : Option NumLit := none
  answer : Option NumLit := none
  tolerance : Option NumLit := none
  pairs : List String := []
  pattern : Option String := none
  target : String := ""
  threshold : Option NumLit := none

/-- An `Option` row of the question (id, is_correct, weight); `weight` is a
nullable numeric column. -/
structure Opt where
  id : String
  is_correct : Bool
  weight : Option Rat := none

/-- The slice of a `Question` row used by grading: `answer_type`, the
`scoring` JSON (nullable), and its options. -/
structure Question where
  answer_type : String
  scoring : Option Scoring := none
  options : List Opt := []

/-- One element of `payload.parts` (`QuestionAttemptPartCreate`). -/
structure ResponsePart where
  selected_option_ids : Option (List String) := none
  text_response : Option String := none
  numeric_response : Option Rat := none

/-- The `(score, max_score)` pair stored on the `QuestionAttempt`. -/
structure GradingResult where
  score : Rat
  max_score : Rat
deriving DecidableEq

/-- Absolute value on `Decimal`, written out so it computes by `rfl`/`decide`. -/
def ratAbs (x : Rat) : Rat := if x < 0 then -x else x

/-- ASCII lowering of one character (the `str.lower` of the inputs grading
compares, which are ASCII in this model). -/
def lowChar (c : Char) : Char :=
  if 65 ≤ c.toNat ∧ c.toNat ≤ 90 then Char.ofNat (c.toNat + 32) else c

/-- Python `str.lower()`. -/
def pyLower (s : String) : String := String.mk (s.data.map lowChar)

/-- Python whitespace for `str.strip()`. -/
def isWS (c : Char) : Bool :=
  c == ' ' || c == '\t' || c == '\n' || c == '\r' || c == '\x0b' || c == '\x0c'

/-- Python `str.strip()`: drop leading and trailing whitespace. -/
def pyStrip (s : String) : String :=
  String.mk (((s.data.dropWhile isWS).reverse.dropWhile isWS).reverse)

instance {ε α : Type} [DecidableEq ε] [DecidableEq α] : DecidableEq (Except ε α) := fun x y =>
  match x, y with
  | .ok a, .ok b =>
    if h : a = b then .isTrue (by rw [h])
    else .isFalse (by intro hc; cases hc; exact h rfl)
  | .error a, .error b =>
    if h : a = b then .isTrue (by rw [h])
    else .isFalse (by intro hc; cases hc; exact h rfl)
  | .ok _, .error _ => .isFalse (by intro hc; cases hc)
  | .error _, .ok _ => .isFalse (by intro hc; cases hc)

/-- The third fallback of `_regex_matches`:
`pattern.replace('\\\\d', '[0-9]').replace('\\d', '[0-9]')`. -/
def digitFallback (p : String) : String :=
  (p.replace "\\\\d" "[0-9]").replace "\\d" "[0-9]"

/-- The helper `_regex_matches(pattern, text)` from `app/api/v1/attempts.py`: empty or
absent pattern/text is `False`; then try the raw pattern, the unicode-escape
decoded pattern, and the digit-class substituted pattern, returning `True` on
the first `re.search` that matches; each block that errors or does not match
falls through to the next. -/
def regexMatches (env : GradeEnv) (pattern : Option String) (text : String) : Bool :=
  match pattern with
  | none => false
  | some p =>
    if p.isEmpty || text.isEmpty then false
    else
      match env.search p text with
      | .matched => true
      | _ =>
        match (match env.unicodeEscape p with
               | some alt => env.search alt text
               | none => .err) with
        | .matched => true
        | _ =>
          match env.search (digitFallback p) text with
          | .matched => true
          | _ => false

/-- Per-part `text` sub-rule (lines 147-150): case-insensitive trimmed
equality against the lowered accepted answers. -/
def textPartScore (pr : PartRule) (r : ResponsePart) (pm : Rat) : Rat :=
  match r.text_response with
  | some t =>
    if !t.isEmpty && (pr.accepted_answers.map pyLower).contains (pyLower (pyStrip t))
    then pm else 0
  | none => 0

/-- Per-part `regex` sub-rule (lines 151-157). -/
def regexPartScore (env : GradeEnv) (pr : PartRule) (r : ResponsePart) (pm : Rat) : Rat :=
  match r.text_response, pr.pattern with
  | some t, some p =>
    if !t.isEmpty && !p.isEmpty && regexMatches env (some p) t then pm else 0
  | _, _ => 0

/-- Per-part `fuzzy` sub-rule (lines 161-164), with the threshold already
converted. -/
def fuzzyPartScore (env : GradeEnv) (pr : PartRule) (r : ResponsePart)
    (th pm : Rat) : Rat :=
  match r.text_response with
  | some t =>
    if !t.isEmpty && decide (th ≤ env.similarity (pyLower t) (pyLower pr.target))
    then pm else 0
  | none => 0

/-- Per-part `numeric` sub-rule (lines 165-173): every conversion failure is
swallowed to 0. -/
def numericPartScore (pr : PartRule) (r : ResponsePart) (pm : Rat) : Rat :=
  match pr.answer with
  | none => 0
  | some a =>
    match a.toDec with
    | none => 0
    | some e =>
      match (pr.tolerance.getD (NumLit.num 0)).toDec with
      | none => 0
      | some t =>
        match r.numeric_response with
        | none => 0
        | some n => if ratAbs (n - e) ≤ t then pm else 0

/-- Score of one `scoring.parts` rule against the response part at the same
index (lines 142-173 of `attempts.py`, the `ptype` if/elif chain); `.error`
models an uncaught raise (only the per-part `fuzzy` branch can raise, via
`float(pr.get("threshold", 0.8))`). -/
def partScore (env : GradeEnv) (pr : PartRule) (resp : Option ResponsePart)
    (pm : Rat) : Except Unit Rat :=
  match resp with
  | none => .ok 0
  | some r =>
    if pr.type.getD "text" = "text" then .ok (textPartScore pr r pm)
    else if pr.type.getD "text" = "regex" then .ok (regexPartScore env pr r pm)
    else if pr.type.getD "text" = "fuzzy" then
      match (pr.threshold.getD (NumLit.num (4/5))).toDec with
      | none => .error ()
      | some th => .ok (fuzzyPartScore env pr r th pm)
    else if pr.type.getD "text" = "numeric" then .ok (numericPartScore pr r pm)
    else .ok 0

/-- The per-part scoring loop (lines 131-173): accumulate
`(score, max_score)` over the rules, reading the response part at the same
index; `Decimal(pr.get("max_score", 1))` raising propagates out. -/
def gradePartsAux (env : GradeEnv) :
    List PartRule → List ResponsePart → Except Unit (Rat × Rat)
  | [], _ => .ok (0, 0)
  | pr :: rest, resps =>
    match (pr.max_score.getD (NumLit.num 1)).toDec with
    | none => .error ()
    | some pm =>
      match partScore env pr resps.head? pm with
      | .error e => .error e
      | .ok sc =>
        match gradePartsAux env rest resps.tail with
        | .error e => .error e
        | .ok sm => .ok (sc + sm.1, pm + sm.2)

/-- Evaluation of `o.weight or 1`: Python `or`-defaulting, so both a NULL weight and a
weight equal to 0 become 1. -/
def weightOr1 (w : Option Rat) : Rat :=
  match w with
  | none => 1
  | some x => if x = 0 then 1 else x

/-- The `selected_ids` accumulation: union (as a concatenated list) of truthy
`selected_option_ids` across all response parts (lines 182-185). -/
def selectedIds (resp : List ResponsePart) : List String :=
  resp.foldl (fun acc p =>
    match p.selected_option_ids with
    | some l => if l.isEmpty then acc else acc ++ l
    | none => acc) []

/-- The `answer_type == "options"` branch (lines 175-190): max is the sum of
`o.weight or 1` over correct options, score the same sum over correct options
whose id occurs among the selected ids. -/
def gradeOptions (opts : List Opt) (resp : List ResponsePart) : GradingResult :=
  let maxS := opts.foldl (fun acc o =>
    if o.is_correct then acc + weightOr1 o.weight else acc) 0
  let sel := selectedIds resp
  let sc := opts.foldl (fun acc o =>
    if sel.contains o.id && o.is_correct then acc + weightOr1 o.weight else acc) 0
  ⟨sc, maxS⟩

/-- The `answer_type == "text"` branch (lines 192-201): case-insensitive
trimmed equality of the first part's text against the accepted answers. -/
def gradeText (s : Scoring) (resp : List ResponsePart) (m : Rat) : GradingResult :=
  let accepted := s.accepted_answers.map pyLower
  match resp.head?.bind (fun p => p.text_response) with
  | some t => if !t.isEmpty && accepted.contains (pyLower (pyStrip t)) then ⟨m, m⟩ else ⟨0, m⟩
  | none => ⟨0, m⟩

/-- The credit condition of the `answer_type == "numeric"` branch
(lines 203-217): first part's numeric response within `tolerance` of
`answer`; any conversion failure is swallowed to no credit. -/
def numericCredit (s : Scoring) (resp : List ResponsePart) : Bool :=
  match resp.head?.bind (fun p => p.numeric_response), s.answer with
  | some n, some a =>
    match a.toDec with
    | none => false
    | some e =>
      match (s.tolerance.getD (NumLit.num 0)).toDec with
      | none => false
      | some t => decide (ratAbs (n - e) ≤ t)
  | _, _ => false

/-- The `answer_type == "numeric"` branch result. -/
def gradeNumeric (s : Scoring) (resp : List ResponsePart) (m : Rat) : GradingResult :=
  if numericCredit s resp then ⟨m, m⟩ else ⟨0, m⟩

/-- The `answer_type == "match"` branch (lines 219-230): trimmed
case-insensitive equality of the first part's text against any of
`scoring.pairs`. -/
def gradeMatch (s : Scoring) (resp : List ResponsePart) (m : Rat) : GradingResult :=
  match resp.head?.bind (fun p => p.text_response) with
  | some t =>
    if s.pairs.any (fun p => !t.isEmpty && pyLower (pyStrip t) == pyLower (pyStrip p))
    then ⟨m, m⟩ else ⟨0, m⟩
  | none => ⟨0, m⟩

/-- The `answer_type == "regex"` branch (lines 232-242). -/
def gradeRegex (env : GradeEnv) (s : Scoring) (resp : List ResponsePart)
    (m : Rat) : GradingResult :=
  match resp.head?.bind (fun p => p.text_response), s.pattern with
  | some t, some p =>
    if !t.isEmpty && !p.isEmpty && regexMatches env (some p) t then ⟨m, m⟩ else ⟨0, m⟩
  | _, _ => ⟨0, m⟩

/-- The `answer_type == "fuzzy"` branch (lines 244-254), with the threshold
already converted. -/
def gradeFuzzy (env : GradeEnv) (s : Scoring) (resp : List ResponsePart)
    (th m : Rat) : GradingResult :=
  match resp.head?.bind (fun p => p.text_response) with
  | some t =>
    if !t.isEmpty && decide (th ≤ env.similarity (pyLower t) (pyLower s.target))
    then ⟨m, m⟩ else ⟨0, m⟩
  | none => ⟨0, m⟩

/-- Conversion `Decimal(scoring.get("max_score", 1))`: raises when the literal does not
convert. -/
def topMax (s : Scoring) : Except Unit Rat :=
  match (s.max_score.getD (NumLit.num 1)).toDec with
  | some m => .ok m
  | none => .error ()

/-- Lift a result builder over the converted max. -/
def mapOk (f : Rat → GradingResult) : Except Unit Rat → Except Unit GradingResult
  | .ok m => .ok (f m)
  | .error e => .error e

/-- The grading computation of `submit_answer` (lines 125-258): per-part
scoring when `scoring.get("parts")` is truthy, otherwise dispatch on
`answer_type`, with the default branch reporting `scoring.max_score`
(default 1) and score 0. -/
def grade (env : GradeEnv) (q : Question) (resp : List ResponsePart) :
    Except Unit GradingResult :=
  let scoring := q.scoring.getD {}
  match scoring.parts with
  | some (pr :: rest) =>
    match gradePartsAux env (pr :: rest) resp with
    | .error e => .error e
    | .ok sm => .ok ⟨sm.1, sm.2⟩
  | _ =>
    if q.answer_type = "options" then .ok (gradeOptions q.options resp)
    else if q.answer_type = "text" then mapOk (gradeText scoring resp) (topMax scoring)
    else if q.answer_type = "numeric" then mapOk (gradeNumeric scoring resp) (topMax scoring)
    else if q.answer_type = "match" then mapOk (gradeMatch scoring resp) (topMax scoring)
    else if q.answer_type = "regex" then mapOk (gradeRegex env scoring resp) (topMax scoring)
    else if q.answer_type = "fuzzy" then
      match (scoring.threshold.getD (NumLit.num (4/5))).toDec with
      | none => .error ()
      | some th => mapOk (gradeFuzzy env scoring resp th) (topMax scoring)
    else
      match q.scoring with
      | none => .ok ⟨0, 1⟩
      | some s => mapOk (fun m => ⟨0, m⟩) (topMax s)

/-- A fixed environment whose searches never match; used for concrete
evaluations that do not involve regex/fuzzy behaviour. -/
def env0 : GradeEnv :=
  { search := fun _ _ => .noMatch
    unicodeEscape := fun _ => none
    similarity := fun _ _ => 0 }

/-! Statistics engine (`app/services/stats_service.py`). -/

/-- A `Taxonomy` row as seen by the walk: its id and nullable `parent_id`. -/
structure TaxNode where
  id : String
  parent_id : Option String
deriving DecidableEq

/-- The ancestor loop of `update_user_taxonomy_stats` (lines 37-44):
starting from `cur`, repeatedly append the node and follow
`db.get(Taxonomy, cur.parent_id)`. Modelled with explicit fuel: `some l`
means the loop finished within `fuel` iterations with visited list `l`;
`none` means it was still running after `fuel` iterations. -/
def walkFrom (tm : String → Option TaxNode) : Nat → Option TaxNode → Option (List TaxNode)
  | _, none => some []
  | 0, some _ => none
  | fuel + 1, some c =>
    match c.parent_id with
    | none => some [c]
    | some pid => (walkFrom tm fuel (tm pid)).map (fun l => c :: l)

/-- A `UserTaxonomyStats` row (nullable counters as stored). -/
structure StatsRow where
  questions_attempted : Option Nat := none
  questions_correct : Option Nat := none
  total_score : Option Rat := none
  max_possible_score : Option Rat := none
  average_score_percent : Rat := 0
deriving DecidableEq

/-- The per-row upsert of `update_user_taxonomy_stats` (lines 58-99):
update the existing row, or insert a fresh one. -/
def upsertRow (score max_score : Rat) : Option StatsRow → StatsRow
  | some ex =>
    let newTotal := ex.total_score.getD 0 + score
    let newMax := ex.max_possible_score.getD 0 + max_score
    { questions_attempted := some (ex.questions_attempted.getD 0 + 1)
      questions_correct :=
        if score = max_score ∧ 0 < max_score
        then some (ex.questions_correct.getD 0 + 1)
        else ex.questions_correct
      total_score := some newTotal
      max_possible_score := some newMax
      average_score_percent := if 0 < newMax then newTotal / newMax * 100 else 0 }
  | none =>
    { questions_attempted := some 1
      questions_correct := some (if score = max_score ∧ 0 < max_score then 1 else 0)
      total_score := some score
      max_possible_score := some max_score
      average_score_percent := if 0 < max_score then score / max_score * 100 else 0 }

/-- Key of a `UserTaxonomyStats` row: `(user_id, taxonomy_id)`. -/
abbrev StatsKey := String × String

/-- The `user_taxonomy_stats` table, modelled as an association list. -/
abbrev StatsTable := List (StatsKey × StatsRow)

/-- Lookup `select(UserTaxonomyStats).where(user_id == .., taxonomy_id == ..)`. -/
def getRow : StatsTable → StatsKey → Option StatsRow
  | [], _ => none
  | e :: rest, k => if e.1 = k then some e.2 else getRow rest k

/-- Write back a row (mutating the existing one or `db.add`-ing a new one). -/
def setRow : StatsTable → StatsKey → StatsRow → StatsTable
  | [], k, r => [(k, r)]
  | e :: rest, k, r => if e.1 = k then (k, r) :: rest else e :: setRow rest k r

/-- Fetch-then-upsert for one `(user, taxonomy)` key. -/
def upsertInto (s m : Rat) (tbl : StatsTable) (k : StatsKey) : StatsTable :=
  setRow tbl k (upsertRow s m (getRow tbl k))

/-- The `for anc in ancestors` loop (lines 46-99): upsert every visited
ancestor for this user. -/
def applyAncestors (u : String) (s m : Rat) (tbl : StatsTable)
    (ancs : List TaxNode) : StatsTable :=
  ancs.foldl (fun t anc => upsertInto s m t (u, anc.id)) tbl

/-- Taxonomy lookups used by the stats service: question-to-taxonomy links
and `db.get(Taxonomy, id)`. -/
structure TaxEnv where
  links : String → List String
  node : String → Option TaxNode

/-- The `for tid in taxonomy_ids` loop of `update_user_taxonomy_stats`:
walk each tagged node's ancestor chain and upsert along it. `none` when some
walk never finishes within the fuel. -/
def updateLinks (env : TaxEnv) (fuel : Nat) (u : String) (s m : Rat) :
    List String → StatsTable → Option StatsTable
  | [], tbl => some tbl
  | tid :: rest, tbl =>
    match walkFrom env.node fuel (env.node tid) with
    | none => none
    | some ancs => updateLinks env fuel u s m rest (applyAncestors u s m tbl ancs)

/-- The service `update_user_taxonomy_stats(db, user_id, question_id, score, max_score)`
(lines 15-99): no-op on a falsy user id, otherwise process every taxonomy
node linked to the question. The falsy `user_id` (`None`/empty) is modelled
as the empty string. -/
def updateUserTaxonomyStats (env : TaxEnv) (fuel : Nat) (u qid : String)
    (s m : Rat) (tbl : StatsTable) : Option StatsTable :=
  if u = "" then some tbl else updateLinks env fuel u s m (env.links qid) tbl

/-! `update_attempt_stats` (`app/services/attempt_service.py`, lines 137-160)
forwards a `time_spent` keyword argument to `update_user_taxonomy_stats`.
Python binds keyword arguments against the callee's parameter list before the
callee body runs, raising `TypeError` when a keyword names no parameter; that
binding step is modelled explicitly. -/

/-- Parameter names of `update_user_taxonomy_stats` (stats_service lines 15-21). -/
def statsServiceParams : List String :=
  ["db", "user_id", "question_id", "score", "max_score"]

/-- Keyword arguments used by the call inside `update_attempt_stats`
(attempt_service lines 153-160). -/
def updateAttemptStatsKwargs : List String :=
  ["db", "user_id", "question_id", "score", "max_score", "time_spent"]

/-- Python keyword binding succeeds iff every keyword names a parameter. -/
def kwargsAccepted (params call : List String) : Bool :=
  call.all (fun k => params.contains k)

/-- The service `update_attempt_stats(db, user_id, question_id, is_correct, score,
max_score, time_spent)`: converts the scores to `Decimal` (exact here) and
delegates to `update_user_taxonomy_stats`; the delegated call only runs if
its keyword binding succeeds, else `TypeError` (`.error`) before any row of
the stats table is touched. -/
def updateAttemptStats (env : TaxEnv) (fuel : Nat) (u qid : String)
    (s m : Rat) (tbl : StatsTable) : Except Unit StatsTable :=
  if kwargsAccepted statsServiceParams updateAttemptStatsKwargs then
    match updateUserTaxonomyStats env fuel u qid s m tbl with
    | some t => .ok t
    | none => .ok tbl
  else .error ()

/-! Side predicates used in the theorem statements. -/

/-- Truthiness of `scoring.get("parts")`: present and a non-empty list. -/
def scoringPartsTruthy (s : Scoring) : Bool :=
  match s.parts with
  | some (_ :: _) => true
  | _ => false

/-- Truthiness of `scoring.get("parts")` at the question level
(`scoring = question.scoring or {}`). -/
def partsTruthy (sc : Option Scoring) : Bool :=
  match sc with
  | some s => scoringPartsTruthy s
  | none => false

/-- The per-rule `max_score` conversions of a parts list, when all succeed. -/
def rulesMaxes : List PartRule → Option (List Rat)
  | [] => some []
  | pr :: rest =>
    match (pr.max_score.getD (NumLit.num 1)).toDec, rulesMaxes rest with
    | some m, some ms => some (m :: ms)
    | _, _ => none

/-- All numeric literals a parts rule converts unconditionally
(`max_score`, and `threshold` for a fuzzy rule) do convert. -/
def ruleParses (pr : PartRule) : Bool :=
  ((pr.max_score.getD (NumLit.num 1)).toDec).isSome &&
  (pr.type.getD "text" != "fuzzy" ||
    ((pr.threshold.getD (NumLit.num (4/5))).toDec).isSome)

/-- All numeric literals the grading code converts outside any
`try`/`except` (top-level `max_score`, top-level fuzzy `threshold`, and the
per-rule literals) do convert. -/
def scoringParses (sc : Option Scoring) : Bool :=
  match sc with
  | none => true
  | some s =>
    ((s.max_score.getD (NumLit.num 1)).toDec).isSome &&
    ((s.threshold.getD (NumLit.num (4/5))).toDec).isSome &&
    (match s.parts with
     | some rules => rules.all ruleParses
     | none => true)

/-- Nonnegativity of a `max_score` literal whenever it converts. -/
def maxLitNonneg (x : Option NumLit) : Bool :=
  match (x.getD (NumLit.num 1)).toDec with
  | none => true
  | some m => decide (0 ≤ m)

/-- The stored option weight, when present, is nonnegative (the data-model
invariant `weight ≥ 0`). -/
def weightNonnegB (o : Opt) : Bool :=
  match o.weight with
  | none => true
  | some w => decide (0 ≤ w)

/-- Every stored option weight is nonnegative. -/
def weightsNonneg (opts : List Opt) : Bool :=
  opts.all weightNonnegB

/-- Nonnegativity of every per-rule `max_score` literal. -/
def rulesMaxNonneg (rules : List PartRule) : Bool :=
  rules.all (fun pr => maxLitNonneg pr.max_score)

/-- All scoring constants grading adds into `score`/`max_score` are
nonnegative: option weights, per-rule max scores, top-level max score. -/
def questionNonneg (q : Question) : Bool :=
  weightsNonneg q.options &&
  (match q.scoring with
   | none => true
   | some s =>
     maxLitNonneg s.max_score &&
     (match s.parts with
      | some rules => rulesMaxNonneg rules
      | none => true))

/-- Max score for options grading as the code computes it, written as a
filtered sum: total `o.weight or 1` over correct options. -/
def optionsMaxModel (opts : List Opt) : Rat :=
  ((opts.filter (fun o => o.is_correct)).map (fun o => weightOr1 o.weight)).sum

/-- Score for options grading as a filtered sum: total `o.weight or 1` over
options that are correct and selected. -/
def optionsScoreModel (opts : List Opt) (resp : List ResponsePart) : Rat :=
  ((opts.filter (fun o => (selectedIds resp).contains o.id && o.is_correct)).map
    (fun o => weightOr1 o.weight)).sum

/-- The claim's reading of the options maximum: sum of `weight` with 1 used
only when the weight is absent (no Python `or`-defaulting of 0). -/
def claimOptionsMax (opts : List Opt) : Rat :=
  ((opts.filter (fun o => o.is_correct)).map (fun o => o.weight.getD 1)).sum

/-- The claim's numeric-credit condition: the first response part's numeric
value differs from the converted `scoring.answer` by at most the converted
`scoring.tolerance` (default 0), boundary included. -/
def numericWithinTolerance (s : Scoring) (resp : List ResponsePart) : Prop :=
  ∃ n e t, (resp.head?.bind (fun p => p.numeric_response)) = some n ∧
    s.answer.bind NumLit.toDec = some e ∧
    (s.tolerance.getD (NumLit.num 0)).toDec = some t ∧
    ratAbs (n - e) ≤ t

/-- The count of attempts recorded for a key, reading 0 for a missing row or
a NULL counter. -/
def attemptedAt (tbl : StatsTable) (k : StatsKey) : Nat :=
  match getRow tbl k with
  | some r => r.questions_attempted.getD 0
  | none => 0

/-- Number of occurrences of node `t` across the ancestor chains of all
taxonomy nodes linked to the question. -/
def chainOccurrences (env : TaxEnv) (fuel : Nat) (qid t : String) : Nat :=
  ((env.links qid).map (fun tid =>
    match walkFrom env.node fuel (env.node tid) with
    | some ancs => ancs.countP (fun a => a.id == t)
    | none => 0)).sum

/-! Concrete inputs used by counterexamples and witnesses. -/

/-- A parts rule worth 5 accepting the text answer `a`. -/
def ruleTextA : PartRule :=
  { type := some "text", max_score := some (.num 5), accepted_answers := ["a"] }

/-- A parts rule with a negative declared max score. -/
def ruleNegMax : PartRule := { max_score := some (.num (-1)) }

/-- A question whose scoring has a satisfied rule worth 5 followed by a
failing rule with max score -1. -/
def qNegParts : Question :=
  { answer_type := "text", scoring := some { parts := some [ruleTextA, ruleNegMax] } }

/-- A response answering `a` to the first part only. -/
def respTextA : List ResponsePart := [{ text_response := some "a" }]

/-- An options question whose single correct option has stored weight 0. -/
def qZeroWeight : Question :=
  { answer_type := "options", options := [⟨"B", true, some 0⟩] }

/-- A response selecting option `B`. -/
def respSelB : List ResponsePart := [{ selected_option_ids := some ["B"] }]

/-- The spec's options example: A(weight 1, incorrect), B(weight 2, correct). -/
def qOptionsAB : Question :=
  { answer_type := "options", options := [⟨"A", false, some 1⟩, ⟨"B", true, some 2⟩] }

/-- A parts rule worth 2 accepting the text answer `a`. -/
def ruleTwoA : PartRule :=
  { type := some "text", max_score := some (.num 2), accepted_answers := ["a"] }

/-- A parts rule with every key defaulted (type text, max score 1). -/
def ruleDefault : PartRule := {}

/-- A scoring object with two parts rules of max 2 and 1. -/
def scoringTwoParts : Scoring := { parts := some [ruleTwoA, ruleDefault] }

/-- Numeric scoring: answer 3.14, tolerance 0.01. -/
def scoringNumeric : Scoring :=
  { answer := some (.num (157/50)), tolerance := some (.num (1/100)) }

/-- A response answering 3.15, exactly at the tolerance boundary. -/
def respBoundary : List ResponsePart := [{ numeric_response := some (63/20) }]

/-- A question of unknown answer type whose `scoring.max_score` raises in
`Decimal(...)`. -/
def qBadMax : Question :=
  { answer_type := "mystery", scoring := some { max_score := some .bad } }

/-- A text question accepting `yes`. -/
def qTextYes : Question :=
  { answer_type := "text", scoring := some { accepted_answers := ["yes"] } }

/-- A response with padded, differently-cased text. -/
def respYes : List ResponsePart := [{ text_response := some "  Yes " }]

/-- An environment modelling the real behaviour of `re` on the pattern
backslash-backslash-d against the text `7`: the raw pattern compiles and
finds no match, its unicode-escape decode is backslash-d, which matches. -/
def envX : GradeEnv :=
  { search := fun p t => if p == "\\d" && t == "7" then .matched else .noMatch
    unicodeEscape := fun p => if p == "\\\\d" then some "\\d" else none
    similarity := fun _ _ => 0 }

/-- A corrupted taxonomy store: node `A` is its own parent. -/
def cycTm : String → Option TaxNode :=
  fun i => if i = "A" then some ⟨"A", some "A"⟩ else none

/-- An acyclic chain root → child → leaf. -/
def lineTm : String → Option TaxNode :=
  fun i =>
    if i = "leaf" then some ⟨"leaf", some "child"⟩
    else if i = "child" then some ⟨"child", some "root"⟩
    else if i = "root" then some ⟨"root", none⟩ else none

/-- Two sibling leaves `L1`, `L2` under one parent `P`; question `q` is
tagged with both siblings. -/
def env9 : TaxEnv :=
  { links := fun qid => if qid == "q" then ["L1", "L2"] else []
    node := fun i =>
      if i == "L1" then some ⟨"L1", some "P"⟩
      else if i == "L2" then some ⟨"L2", some "P"⟩
      else if i == "P" then some ⟨"P", none⟩ else none }

/-- The stats table produced by one attempt of question `q` in `env9`. -/
def tblSiblings : StatsTable :=
  (updateUserTaxonomyStats env9 3 "u" "q" 1 1 []).getD []

/-- A single root node `N`, linked from question `q`. -/
def envOne : TaxEnv :=
  { links := fun qid => if qid == "q" then ["N"] else []
    node := fun i => if i == "N" then some ⟨"N", none⟩ else none }

/-! Theorems. -/

/-- C6: characterization of `_regex_matches` on non-empty inputs: the result
is the disjunction of the three attempts — so the later attempts run whenever
an earlier one did not produce a match, whether it errored or merely found
nothing. The `none` and empty cases return false. -/
theorem regex_fallback_chain (env : GradeEnv) (p t : String)
    (hp : p.isEmpty = false) (ht : t.isEmpty = false) :
    regexMatches env none t = false ∧
    regexMatches env (some "") t = false ∧
    regexMatches env (some p) "" = false ∧
    regexMatches env (some p) t =
      ((env.search p t == .matched) ||
       (match env.unicodeEscape p with
        | some alt => env.search alt t == .matched
        | none => false) ||
       (env.search (digitFallback p) t == .matched)) := by
  have h0 : ("" : String).isEmpty = true := rfl
  refine ⟨rfl, rfl, by simp [regexMatches, h0], ?_⟩
  simp only [regexMatches, hp, ht, Bool.or_self, if_false]
  cases h1 : env.search p t <;>
    cases h2 : env.unicodeEscape p <;>
      first
        | rfl
        | (cases h3 : env.search (digitFallback p) t <;> simp [h3]) <;>
          (rename_i alt; cases h3 : env.search alt t <;> simp [h3])

/-- C6 witness: the characterization at a concrete environment and inputs
where no attempt matches. -/
theorem regex_fallback_chain_witness :
    regexMatches env0 none "b" = false ∧ regexMatches env0 (some "a") "b" = false := by
  have h := regex_fallback_chain env0 "a" "b" rfl rfl
  exact ⟨h.1, by rw [h.2.2.2]; decide⟩

/-- C6 counterexample: on pattern backslash-backslash-d and text `7` the
first attempt executes without error and merely finds no match, yet
`_regex_matches` still runs the decoded second attempt and returns true —
the claim that later attempts run only on compile/execute failure predicts
false here. -/
theorem regex_order_cex :
    regexMatches envX (some "\\\\d") "7" = true ∧
    envX.search "\\\\d" "7" = SearchOutcome.noMatch ∧
    SearchOutcome.noMatch ≠ SearchOutcome.err := by
  refine ⟨by decide, by decide, by decide⟩

/-- C7: the ancestor walk of `update_user_taxonomy_stats` has no visited-set
guard: on the corrupted store where node `A` is its own parent the loop is
still running after any number of iterations (it never terminates and no
internal error is raised), while on the acyclic chain root→child→leaf it
terminates with the three ancestors. -/
theorem taxonomy_walk_cycle_diverges :
    (∀ fuel, walkFrom cycTm fuel (some ⟨"A", some "A"⟩) = none) ∧
    walkFrom lineTm 3 (some ⟨"leaf", some "child"⟩) =
      some [⟨"leaf", some "child"⟩, ⟨"child", some "root"⟩, ⟨"root", none⟩] := by
  constructor
  · intro fuel
    induction fuel with
    | zero => rfl
    | succ n ih => simp [walkFrom, cycTm, ih]
  · decide

/-- C10: the keyword binding of the call inside `update_attempt_stats` fails
(`time_spent` names no parameter of `update_user_taxonomy_stats`), so every
call raises `TypeError` and no stats row is ever touched. -/
theorem update_attempt_stats_type_error :
    kwargsAccepted statsServiceParams updateAttemptStatsKwargs = false ∧
    ∀ env fuel u qid s m tbl,
      updateAttemptStats env fuel u qid s m tbl = .error () := by
  refine ⟨by decide, ?_⟩
  intro env fuel u qid s m tbl
  simp [updateAttemptStats, show kwargsAccepted statsServiceParams
    updateAttemptStatsKwargs = false from by decide]

/-- C5 counterexample: a question with unrecognized answer type whose
`scoring.max_score` does not convert makes `Decimal(...)` raise out of the
grading block instead of being swallowed. -/
theorem grading_raise_cex : grade env0 qBadMax [] = .error () := by decide

/-- C2 counterexample: an options question whose only (correct, selected)
option has stored weight 0 is graded with `weight or 1`, so score and max
are 1, while the claim's sum of weights (default 1 only when missing) is 0. -/
theorem options_zero_weight_cex :
    grade env0 qZeroWeight respSelB = .ok ⟨1, 1⟩ ∧
    claimOptionsMax qZeroWeight.options = 0 ∧ (1 : Rat) ≠ 0 := by
  refine ⟨?_, ?_, by norm_num⟩
  · norm_num [grade, qZeroWeight, respSelB, gradeOptions, selectedIds, weightOr1]
  · norm_num [claimOptionsMax, qZeroWeight]

/-- C8: the upsert of `update_user_taxonomy_stats` is additive per
`(user_id, taxonomy_id)` row: inserting on a missing row with the claimed
initial values, incrementing an existing row's counters and totals and
recomputing the average (0 on a nonpositive total max), so that two
identical upserts starting from no row give `questions_attempted = 2` and
`total_score = 2 * score`; the last conjunct shows the same through
`update_user_taxonomy_stats` itself on a single-node taxonomy. -/
theorem stats_upsert_additivity (s m : Rat) (ex : StatsRow) :
    (upsertRow s m none =
      { questions_attempted := some 1
        questions_correct := some (if s = m ∧ 0 < m then 1 else 0)
        total_score := some s
        max_possible_score := some m
        average_score_percent := if 0 < m then s / m * 100 else 0 }) ∧
    ((upsertRow s m (some ex)).questions_attempted =
      some (ex.questions_attempted.getD 0 + 1)) ∧
    ((upsertRow s m (some ex)).total_score = some (ex.total_score.getD 0 + s)) ∧
    ((upsertRow s m (some ex)).max_possible_score =
      some (ex.max_possible_score.getD 0 + m)) ∧
    ((upsertRow s m (some ex)).questions_correct =
      if s = m ∧ 0 < m then some (ex.questions_correct.getD 0 + 1)
      else ex.questions_correct) ∧
    ((upsertRow s m (some ex)).average_score_percent =
      if 0 < ex.max_possible_score.getD 0 + m
      then (ex.total_score.getD 0 + s) / (ex.max_possible_score.getD 0 + m) * 100
      else 0) ∧
    ((upsertRow s m (some (upsertRow s m none))).questions_attempted = some 2) ∧
    ((upsertRow s m (some (upsertRow s m none))).total_score = some (2 * s)) ∧
    (getRow ((updateUserTaxonomyStats envOne 2 "u" "q" s m
        ((updateUserTaxonomyStats envOne 2 "u" "q" s m []).getD [])).getD [])
      ("u", "N") = some (upsertRow s m (some (upsertRow s m none)))) := by
  refine ⟨rfl, rfl, rfl, rfl, rfl, rfl, rfl, ?_, rfl⟩
  show some (s + s) = some (2 * s)
  rw [two_mul]

/-- C1 counterexample: with parts rules of max 5 (satisfied) and max -1
(failed), grading returns score 5 over max 4, violating
`score ≤ max_score` at a positive max. -/
theorem grading_bounds_cex :
    grade env0 qNegParts respTextA = .ok ⟨5, 4⟩ ∧
    (0 : Rat) < 4 ∧ ¬ ((5 : Rat) ≤ 4) := by
  refine ⟨?_, by norm_num, by norm_num⟩
  norm_num [grade, qNegParts, respTextA, gradePartsAux, partScore, textPartScore,
    ruleTextA, ruleNegMax, NumLit.toDec, pyLower, pyStrip, lowChar, isWS]
  exact ⟨by decide, by decide⟩

/-- Folding conditional additions equals the sum over the filtered, mapped
list (the shape of both accumulations in the options branch). -/
theorem foldl_add_filter {α : Type} (p : α → Bool) (f : α → Rat) :
    ∀ (l : List α) (a : Rat),
      l.foldl (fun acc o => if p o then acc + f o else acc) a
        = a + ((l.filter p).map f).sum := by
  intro l
  induction l with
  | nil => intro a; simp
  | cons x xs ih =>
    intro a
    by_cases h : p x = true
    · simp [List.filter_cons, h, ih, add_assoc]
    · simp only [Bool.not_eq_true] at h
      simp [List.filter_cons, h, ih]

/-- A sum over a conjunctively filtered list is bounded by the sum over the
weaker filter when the summands are nonnegative. -/
theorem sum_filter_and_le {α : Type} (p q : α → Bool) (f : α → Rat) :
    ∀ (l : List α), (∀ o ∈ l, 0 ≤ f o) →
      ((l.filter (fun o => q o && p o)).map f).sum ≤ ((l.filter p).map f).sum := by
  intro l
  induction l with
  | nil => intro _; simp
  | cons x xs ih =>
    intro hf
    have hx : 0 ≤ f x := hf x (List.mem_cons_self x xs)
    have hxs : ∀ o ∈ xs, 0 ≤ f o := fun o ho => hf o (List.mem_cons_of_mem x ho)
    by_cases hp : p x = true
    · by_cases hq : q x = true
      · simp only [List.filter_cons, hp, hq, Bool.and_self, if_true]
        simp only [List.map_cons, List.sum_cons]
        exact add_le_add_left (ih hxs) (f x)
      · simp only [Bool.not_eq_true] at hq
        simp only [List.filter_cons, hp, hq, Bool.false_and, if_true, if_false]
        simp only [List.map_cons, List.sum_cons]
        exact le_add_of_nonneg_of_le hx (ih hxs)
    · simp only [Bool.not_eq_true] at hp
      simp only [List.filter_cons, hp, Bool.and_false, if_false]
      exact ih hxs

/-- Every summand of a mapped filtered list being nonnegative bounds the sum
below by 0. -/
theorem sum_filter_nonneg {α : Type} (p : α → Bool) (f : α → Rat)
    (l : List α) (hf : ∀ o ∈ l, 0 ≤ f o) :
    0 ≤ ((l.filter p).map f).sum := by
  apply List.sum_nonneg
  intro x hx
  obtain ⟨o, ho, rfl⟩ := List.mem_map.mp hx
  exact hf o (List.mem_of_mem_filter ho)

/-- The value `o.weight or 1` is nonnegative whenever the stored weight is. -/
theorem weightOr1_nonneg (o : Opt) (hw : weightNonnegB o = true) :
    0 ≤ weightOr1 o.weight := by
  unfold weightNonnegB at hw
  rcases hwv : o.weight with _ | x
  · norm_num [weightOr1]
  · rw [hwv] at hw
    simp only [decide_eq_true_eq] at hw
    unfold weightOr1
    by_cases hx : x = 0
    · simp [hx]
    · simp [hx, hw]

/-- The options branch: score and max are the filtered sums of
`o.weight or 1`. -/
theorem gradeOptions_sums (opts : List Opt) (resp : List ResponsePart) :
    gradeOptions opts resp =
      ⟨optionsScoreModel opts resp, optionsMaxModel opts⟩ := by
  simp only [gradeOptions]
  rw [foldl_add_filter, foldl_add_filter]
  simp [optionsScoreModel, optionsMaxModel]

/-- Bounds for the options sums under nonnegative stored weights. -/
theorem gradeOptions_bounds (opts : List Opt) (resp : List ResponsePart)
    (hw : weightsNonneg opts = true) :
    0 ≤ optionsScoreModel opts resp ∧
      optionsScoreModel opts resp ≤ optionsMaxModel opts ∧
      0 ≤ optionsMaxModel opts := by
  have hf : ∀ o ∈ opts, 0 ≤ weightOr1 o.weight := fun o ho =>
    weightOr1_nonneg o (List.all_eq_true.mp hw o ho)
  unfold optionsScoreModel optionsMaxModel
  refine ⟨sum_filter_nonneg _ _ _ hf, ?_, sum_filter_nonneg _ _ _ hf⟩
  have h2 := sum_filter_and_le (fun o => o.is_correct)
    (fun o => (selectedIds resp).contains o.id) (fun o => weightOr1 o.weight) opts hf
  exact h2

/-- C2 (amended): for an options question without truthy `scoring.parts`,
grading returns max equal to the sum of `o.weight or 1` over correct options
and score the same sum restricted to options whose id occurs among the
selected ids — so each option counts at most once and incorrect selections
contribute nothing. -/
theorem options_weight_or_default (env : GradeEnv) (q : Question)
    (resp : List ResponsePart) (hat : q.answer_type = "options")
    (hp : partsTruthy q.scoring = false) :
    grade env q resp =
      .ok ⟨optionsScoreModel q.options resp, optionsMaxModel q.options⟩ := by
  obtain ⟨at_, sc?, opts⟩ := q
  simp only at hat hp
  subst hat
  rcases sc? with _ | s
  · rw [show grade env ⟨"options", none, opts⟩ resp = .ok (gradeOptions opts resp)
      from rfl, gradeOptions_sums]
  · simp only [partsTruthy, scoringPartsTruthy] at hp
    rcases hps : s.parts with _ | l
    · simp [grade, hps, gradeOptions_sums]
    · rcases l with _ | ⟨pr, rest⟩
      · simp [grade, hps, gradeOptions_sums]
      · rw [hps] at hp; simp at hp

/-- C2 witness: the amended statement at the spec's example options
A(weight 1, incorrect), B(weight 2, correct) with B selected. -/
theorem options_weight_or_default_witness :
    grade env0 qOptionsAB respSelB =
      .ok ⟨optionsScoreModel qOptionsAB.options respSelB,
           optionsMaxModel qOptionsAB.options⟩ :=
  options_weight_or_default env0 qOptionsAB respSelB rfl rfl

/-- When every rule's `max_score` converts, the accumulated max of the
per-part loop is the sum of the converted maxes, whatever the responses. -/
theorem gradePartsAux_max (env : GradeEnv) :
    ∀ (rules : List PartRule) (ms : List Rat) (resps : List ResponsePart)
      (sm : Rat × Rat), rulesMaxes rules = some ms →
      gradePartsAux env rules resps = .ok sm → sm.2 = ms.sum := by
  intro rules
  induction rules with
  | nil =>
    intro ms resps sm hm h
    simp only [rulesMaxes, Option.some.injEq] at hm
    simp only [gradePartsAux] at h
    cases h
    simp [← hm]
  | cons pr rest ih =>
    intro ms resps sm hm h
    simp only [rulesMaxes] at hm
    rcases hpm : (pr.max_score.getD (NumLit.num 1)).toDec with _ | pm <;> rw [hpm] at hm
    · simp at hm
    · rcases hrm : rulesMaxes rest with _ | ms2 <;> rw [hrm] at hm
      · simp at hm
      · simp only [Option.some.injEq] at hm
        simp only [gradePartsAux, hpm] at h
        rcases hps : partScore env pr resps.head? pm with e | sc <;> rw [hps] at h
        · cases h
        · rcases hrec : gradePartsAux env rest resps.tail with e | sm2 <;> rw [hrec] at h
          · cases h
          · cases h
            have h2 := ih ms2 resps.tail sm2 hrm hrec
            simp [← hm, h2]

/-- With no response parts at all, every rule is skipped: score 0, max the
sum of the converted rule maxes. -/
theorem gradePartsAux_nil_resp (env : GradeEnv) :
    ∀ (rules : List PartRule) (ms : List Rat), rulesMaxes rules = some ms →
      gradePartsAux env rules [] = .ok (0, ms.sum) := by
  intro rules
  induction rules with
  | nil =>
    intro ms hm
    simp only [rulesMaxes, Option.some.injEq] at hm
    simp [gradePartsAux, ← hm]
  | cons pr rest ih =>
    intro ms hm
    simp only [rulesMaxes] at hm
    rcases hpm : (pr.max_score.getD (NumLit.num 1)).toDec with _ | pm <;> rw [hpm] at hm
    · simp at hm
    · rcases hrm : rulesMaxes rest with _ | ms2 <;> rw [hrm] at hm
      · simp at hm
      · simp only [Option.some.injEq] at hm
        have h2 := ih ms2 hrm
        simp only [gradePartsAux, hpm, List.head?_nil, List.tail_nil, partScore, h2]
        simp [← hm]

/-- C3: a truthy `scoring.parts` takes precedence over `answer_type` (and the
options list): grading is identical for any two answer types; when grading
succeeds the max is the sum of the rules' converted `max_score` values
independent of how many response parts were supplied; and with no response
parts at all the result is score 0 with that same max. -/
theorem per_part_precedence (env : GradeEnv) (s : Scoring)
    (opts opts2 : List Opt) (at1 at2 : String) (resp : List ResponsePart)
    (pr : PartRule) (rest : List PartRule) (ms : List Rat)
    (hp : s.parts = some (pr :: rest)) (hm : rulesMaxes (pr :: rest) = some ms) :
    (grade env ⟨at1, some s, opts⟩ resp = grade env ⟨at2, some s, opts2⟩ resp) ∧
    (∀ r, grade env ⟨at1, some s, opts⟩ resp = .ok r → r.max_score = ms.sum) ∧
    (grade env ⟨at1, some s, opts⟩ [] = .ok ⟨0, ms.sum⟩) := by
  refine ⟨by simp [grade, hp], ?_, ?_⟩
  · intro r h
    simp only [grade, Option.getD_some, hp] at h
    rcases hga : gradePartsAux env (pr :: rest) resp with e | sm <;> rw [hga] at h
    · cases h
    · cases h
      exact gradePartsAux_max env (pr :: rest) ms resp sm hm hga
  · simp only [grade, Option.getD_some, hp]
    rw [gradePartsAux_nil_resp env (pr :: rest) ms hm]

/-- C3 witness: two rules of max 2 and 1 with an empty response: the same
result for answer types `options` and `mystery`, max 3, score 0. -/
theorem per_part_precedence_witness :
    (grade env0 ⟨"options", some scoringTwoParts, []⟩ [] =
      grade env0 ⟨"mystery", some scoringTwoParts, []⟩ []) ∧
    grade env0 ⟨"options", some scoringTwoParts, []⟩ [] = .ok ⟨0, 3⟩ := by
  have h := per_part_precedence env0 scoringTwoParts [] [] "options" "mystery" []
    ruleTwoA [ruleDefault] [2, 1] rfl rfl
  refine ⟨h.1, ?_⟩
  rw [h.2.2]
  norm_num

/-- The code's numeric credit condition coincides with the claim's
within-tolerance condition. -/
theorem numericCredit_iff (s : Scoring) (resp : List ResponsePart) :
    numericCredit s resp = true ↔ numericWithinTolerance s resp := by
  unfold numericCredit numericWithinTolerance
  rcases hn : resp.head?.bind (fun p => p.numeric_response) with _ | n
  · simp [hn]
  · rcases ha : s.answer with _ | a
    · simp [hn, ha]
    · rcases he : a.toDec with _ | e
      · simp [hn, ha, he, Option.bind]
      · rcases ht : (s.tolerance.getD (NumLit.num 0)).toDec with _ | t
        · simp [hn, ha, he, ht, Option.bind]
        · simp [hn, ha, he, ht, Option.bind]

/-- C4: for a numeric question without truthy `scoring.parts` and a
converting `max_score` (default 1), grading returns max `m` and score `m`
exactly when the first response part's numeric value is within the
(inclusive) tolerance of the converted answer; any conversion failure of the
answer or tolerance, or a missing numeric response, gives score 0 rather
than an error. -/
theorem numeric_tolerance_grading (env : GradeEnv) (s : Scoring)
    (opts : List Opt) (resp : List ResponsePart) (m : Rat)
    (hp : scoringPartsTruthy s = false)
    (hm : (s.max_score.getD (NumLit.num 1)).toDec = some m) :
    ∃ sc, grade env ⟨"numeric", some s, opts⟩ resp = .ok ⟨sc, m⟩ ∧
      (numericWithinTolerance s resp → sc = m) ∧
      (¬ numericWithinTolerance s resp → sc = 0) := by
  refine ⟨if numericCredit s resp then m else 0, ?_, ?_, ?_⟩
  · have hg : grade env ⟨"numeric", some s, opts⟩ resp
        = .ok (gradeNumeric s resp m) := by
      unfold scoringPartsTruthy at hp
      rcases hps : s.parts with _ | l
      · simp [grade, hps, topMax, hm, mapOk]
      · rcases l with _ | ⟨pr, rest⟩
        · simp [grade, hps, topMax, hm, mapOk]
        · rw [hps] at hp; simp at hp
    rw [hg]
    unfold gradeNumeric
    by_cases hc : numericCredit s resp = true
    · simp [hc]
    · simp [hc]
  · intro hw
    rw [if_pos ((numericCredit_iff s resp).mpr hw)]
  · intro hw
    rw [if_neg (fun hc => hw ((numericCredit_iff s resp).mp hc))]

/-- C4 witness: answer 3.14, tolerance 0.01, response 3.15 — the boundary is
included and grading awards full credit 1 of 1. -/
theorem numeric_tolerance_grading_witness :
    grade env0 ⟨"numeric", some scoringNumeric, []⟩ respBoundary = .ok ⟨1, 1⟩ := by
  obtain ⟨sc, hg, hyes, _⟩ :=
    numeric_tolerance_grading env0 scoringNumeric [] respBoundary 1 rfl rfl
  have hsc : sc = 1 := by
    apply hyes
    refine ⟨63/20, 157/50, 1/100, rfl, rfl, rfl, ?_⟩
    norm_num [ratAbs]
  rw [hsc] at hg
  exact hg

/-- Every answer-type grader that reads `topMax` returns either full credit
`(m, m)` or `(0, m)`: text. -/
theorem gradeText_cases (s : Scoring) (resp : List ResponsePart) (m : Rat) :
    gradeText s resp m = ⟨m, m⟩ ∨ gradeText s resp m = ⟨0, m⟩ := by
  unfold gradeText
  cases resp.head?.bind (fun p => p.text_response) with
  | none => exact Or.inr rfl
  | some t =>
    dsimp only
    split
    · exact Or.inl rfl
    · exact Or.inr rfl

/-- Full credit or zero: numeric. -/
theorem gradeNumeric_cases (s : Scoring) (resp : List ResponsePart) (m : Rat) :
    gradeNumeric s resp m = ⟨m, m⟩ ∨ gradeNumeric s resp m = ⟨0, m⟩ := by
  unfold gradeNumeric
  split
  · exact Or.inl rfl
  · exact Or.inr rfl

/-- Full credit or zero: match. -/
theorem gradeMatch_cases (s : Scoring) (resp : List ResponsePart) (m : Rat) :
    gradeMatch s resp m = ⟨m, m⟩ ∨ gradeMatch s resp m = ⟨0, m⟩ := by
  unfold gradeMatch
  cases resp.head?.bind (fun p => p.text_response) with
  | none => exact Or.inr rfl
  | some t =>
    dsimp only
    split
    · exact Or.inl rfl
    · exact Or.inr rfl

/-- Full credit or zero: regex. -/
theorem gradeRegex_cases (env : GradeEnv) (s : Scoring)
    (resp : List ResponsePart) (m : Rat) :
    gradeRegex env s resp m = ⟨m, m⟩ ∨ gradeRegex env s resp m = ⟨0, m⟩ := by
  unfold gradeRegex
  rcases resp.head?.bind (fun p => p.text_response) with _ | t <;>
    rcases s.pattern with _ | p
  · exact Or.inr rfl
  · exact Or.inr rfl
  · exact Or.inr rfl
  · dsimp only
    split
    · exact Or.inl rfl
    · exact Or.inr rfl

/-- Full credit or zero: fuzzy. -/
theorem gradeFuzzy_cases (env : GradeEnv) (s : Scoring)
    (resp : List ResponsePart) (th m : Rat) :
    gradeFuzzy env s resp th m = ⟨m, m⟩ ∨ gradeFuzzy env s resp th m = ⟨0, m⟩ := by
  unfold gradeFuzzy
  cases resp.head?.bind (fun p => p.text_response) with
  | none => exact Or.inr rfl
  | some t =>
    dsimp only
    split
    · exact Or.inl rfl
    · exact Or.inr rfl

/-- The three bounds follow for any full-credit-or-zero result over a
nonnegative max. -/
theorem bounds_of_full_or_zero (r : GradingResult) (m : Rat) (hm : 0 ≤ m)
    (hr : r = ⟨m, m⟩ ∨ r = ⟨0, m⟩) :
    0 ≤ r.score ∧ 0 ≤ r.max_score ∧ (0 < r.max_score → r.score ≤ r.max_score) := by
  rcases hr with rfl | rfl
  · exact ⟨hm, hm, fun _ => le_refl m⟩
  · exact ⟨le_refl 0, hm, fun _ => hm⟩

/-- The text sub-rule scores 0 or full. -/
theorem textPartScore_cases (pr : PartRule) (r : ResponsePart) (pm : Rat) :
    textPartScore pr r pm = 0 ∨ textPartScore pr r pm = pm := by
  unfold textPartScore
  rcases r.text_response with _ | t
  · exact Or.inl rfl
  · dsimp only
    split
    · exact Or.inr rfl
    · exact Or.inl rfl

/-- The regex sub-rule scores 0 or full. -/
theorem regexPartScore_cases (env : GradeEnv) (pr : PartRule)
    (r : ResponsePart) (pm : Rat) :
    regexPartScore env pr r pm = 0 ∨ regexPartScore env pr r pm = pm := by
  unfold regexPartScore
  rcases r.text_response with _ | t <;> rcases pr.pattern with _ | p
  · exact Or.inl rfl
  · exact Or.inl rfl
  · exact Or.inl rfl
  · dsimp only
    split
    · exact Or.inr rfl
    · exact Or.inl rfl

/-- The fuzzy sub-rule scores 0 or full. -/
theorem fuzzyPartScore_cases (env : GradeEnv) (pr : PartRule)
    (r : ResponsePart) (th pm : Rat) :
    fuzzyPartScore env pr r th pm = 0 ∨ fuzzyPartScore env pr r th pm = pm := by
  unfold fuzzyPartScore
  rcases r.text_response with _ | t
  · exact Or.inl rfl
  · dsimp only
    split
    · exact Or.inr rfl
    · exact Or.inl rfl

/-- The numeric sub-rule scores 0 or full. -/
theorem numericPartScore_cases (pr : PartRule) (r : ResponsePart) (pm : Rat) :
    numericPartScore pr r pm = 0 ∨ numericPartScore pr r pm = pm := by
  unfold numericPartScore
  rcases pr.answer with _ | a
  · exact Or.inl rfl
  · dsimp only
    rcases a.toDec with _ | e
    · exact Or.inl rfl
    · dsimp only
      rcases (pr.tolerance.getD (NumLit.num 0)).toDec with _ | t
      · exact Or.inl rfl
      · dsimp only
        rcases r.numeric_response with _ | n
        · exact Or.inl rfl
        · dsimp only
          split
          · exact Or.inr rfl
          · exact Or.inl rfl

/-- Unfolding equation of `partScore` on a present response part. -/
theorem partScore_some (env : GradeEnv) (pr : PartRule) (r : ResponsePart)
    (pm : Rat) :
    partScore env pr (some r) pm =
      (if pr.type.getD "text" = "text" then .ok (textPartScore pr r pm)
       else if pr.type.getD "text" = "regex" then .ok (regexPartScore env pr r pm)
       else if pr.type.getD "text" = "fuzzy" then
         match (pr.threshold.getD (NumLit.num (4/5))).toDec with
         | none => .error ()
         | some th => .ok (fuzzyPartScore env pr r th pm)
       else if pr.type.getD "text" = "numeric" then .ok (numericPartScore pr r pm)
       else .ok 0) := rfl

/-- A successful part score is either 0 or the rule's full max. -/
theorem partScore_ok_cases (env : GradeEnv) (pr : PartRule)
    (resp : Option ResponsePart) (pm sc : Rat)
    (h : partScore env pr resp pm = .ok sc) : sc = 0 ∨ sc = pm := by
  rcases resp with _ | r
  · rw [show partScore env pr none pm = .ok 0 from rfl] at h
    cases h
    exact Or.inl rfl
  · rw [partScore_some] at h
    by_cases h1 : pr.type.getD "text" = "text"
    · rw [if_pos h1] at h
      cases h
      exact textPartScore_cases pr r pm
    · rw [if_neg h1] at h
      by_cases h2 : pr.type.getD "text" = "regex"
      · rw [if_pos h2] at h
        cases h
        exact regexPartScore_cases env pr r pm
      · rw [if_neg h2] at h
        by_cases h3 : pr.type.getD "text" = "fuzzy"
        · rw [if_pos h3] at h
          rcases htd : (pr.threshold.getD (NumLit.num (4/5))).toDec with _ | th <;>
            rw [htd] at h
          · cases h
          · cases h
            exact fuzzyPartScore_cases env pr r th pm
        · rw [if_neg h3] at h
          by_cases h4 : pr.type.getD "text" = "numeric"
          · rw [if_pos h4] at h
            cases h
            exact numericPartScore_cases pr r pm
          · rw [if_neg h4] at h
            cases h
            exact Or.inl rfl

/-- A rule whose unconditional literals convert never raises. -/
theorem partScore_isOk (env : GradeEnv) (pr : PartRule)
    (resp : Option ResponsePart) (pm : Rat) (hp : ruleParses pr = true) :
    ∃ sc, partScore env pr resp pm = .ok sc := by
  rcases resp with _ | r
  · exact ⟨0, rfl⟩
  · rw [partScore_some]
    by_cases h1 : pr.type.getD "text" = "text"
    · rw [if_pos h1]
      exact ⟨_, rfl⟩
    · rw [if_neg h1]
      by_cases h2 : pr.type.getD "text" = "regex"
      · rw [if_pos h2]
        exact ⟨_, rfl⟩
      · rw [if_neg h2]
        by_cases h3 : pr.type.getD "text" = "fuzzy"
        · rw [if_pos h3]
          rcases htd : (pr.threshold.getD (NumLit.num (4/5))).toDec with _ | th
          · exfalso
            unfold ruleParses at hp
            rw [Bool.and_eq_true] at hp
            have h2 := hp.2
            rw [h3, htd] at h2
            simp at h2
          · exact ⟨_, rfl⟩
        · rw [if_neg h3]
          by_cases h4 : pr.type.getD "text" = "numeric"
          · rw [if_pos h4]
            exact ⟨_, rfl⟩
          · rw [if_neg h4]
            exact ⟨_, rfl⟩

/-- Accumulated bounds of the per-part loop: the score is nonnegative and at
most the accumulated max, given nonnegative converted rule maxes. -/
theorem gradePartsAux_bounds (env : GradeEnv) :
    ∀ (rules : List PartRule) (resps : List ResponsePart) (sm : Rat × Rat),
      rulesMaxNonneg rules = true →
      gradePartsAux env rules resps = .ok sm → 0 ≤ sm.1 ∧ sm.1 ≤ sm.2 := by
  intro rules
  induction rules with
  | nil =>
    intro resps sm _ h
    simp only [gradePartsAux] at h
    cases h
    norm_num
  | cons pr rest ih =>
    intro resps sm hn h
    rw [show rulesMaxNonneg (pr :: rest)
        = (maxLitNonneg pr.max_score && rulesMaxNonneg rest) from rfl,
      Bool.and_eq_true] at hn
    simp only [gradePartsAux] at h
    rcases hpm : (pr.max_score.getD (NumLit.num 1)).toDec with _ | pm <;>
      simp only [hpm] at h
    · cases h
    · have hpm_nn : 0 ≤ pm := by
        have h0 := hn.1
        unfold maxLitNonneg at h0
        rw [hpm] at h0
        simpa using h0
      rcases hps : partScore env pr resps.head? pm with e | sc <;> simp only [hps] at h
      · cases h
      · rcases hrec : gradePartsAux env rest resps.tail with e2 | sm2 <;>
          simp only [hrec] at h
        · cases h
        · cases h
          have hrec_b := ih resps.tail sm2 hn.2 hrec
          have hsc : sc = 0 ∨ sc = pm := partScore_ok_cases env pr resps.head? pm sc hps
          constructor
          · rcases hsc with h0 | h0 <;> rw [h0]
            · simpa using hrec_b.1
            · exact add_nonneg hpm_nn hrec_b.1
          · rcases hsc with h0 | h0 <;> rw [h0]
            · show (0 : Rat) + sm2.1 ≤ pm + sm2.2
              calc (0 : Rat) + sm2.1 = sm2.1 := zero_add _
                _ ≤ sm2.2 := hrec_b.2
                _ ≤ pm + sm2.2 := le_add_of_nonneg_left hpm_nn
            · exact add_le_add_left hrec_b.2 pm

/-- The per-part loop never raises when every rule's literals convert. -/
theorem gradePartsAux_isOk (env : GradeEnv) :
    ∀ (rules : List PartRule) (resps : List ResponsePart),
      rules.all ruleParses = true →
      ∃ sm, gradePartsAux env rules resps = .ok sm := by
  intro rules
  induction rules with
  | nil => intro resps _; exact ⟨(0, 0), rfl⟩
  | cons pr rest ih =>
    intro resps hp
    rw [List.all_cons, Bool.and_eq_true] at hp
    rcases hpm : (pr.max_score.getD (NumLit.num 1)).toDec with _ | pm
    · exfalso
      have h1 := hp.1
      unfold ruleParses at h1
      rw [Bool.and_eq_true] at h1
      rw [hpm] at h1
      simp at h1
    · obtain ⟨sc, hsc⟩ := partScore_isOk env pr resps.head? pm hp.1
      obtain ⟨sm2, hsm2⟩ := ih resps.tail hp.2
      refine ⟨(sc + sm2.1, pm + sm2.2), ?_⟩
      simp only [gradePartsAux, hpm, hsc, hsm2]

/-- When `scoring.get("parts")` is falsy, grading dispatches on
`answer_type`. -/
theorem grade_dispatch (env : GradeEnv) (q : Question) (resp : List ResponsePart)
    (hp : partsTruthy q.scoring = false) :
    grade env q resp =
      (if q.answer_type = "options" then .ok (gradeOptions q.options resp)
       else if q.answer_type = "text" then
         mapOk (gradeText (q.scoring.getD {}) resp) (topMax (q.scoring.getD {}))
       else if q.answer_type = "numeric" then
         mapOk (gradeNumeric (q.scoring.getD {}) resp) (topMax (q.scoring.getD {}))
       else if q.answer_type = "match" then
         mapOk (gradeMatch (q.scoring.getD {}) resp) (topMax (q.scoring.getD {}))
       else if q.answer_type = "regex" then
         mapOk (gradeRegex env (q.scoring.getD {}) resp) (topMax (q.scoring.getD {}))
       else if q.answer_type = "fuzzy" then
         match ((q.scoring.getD {}).threshold.getD (NumLit.num (4/5))).toDec with
         | none => .error ()
         | some th =>
           mapOk (gradeFuzzy env (q.scoring.getD {}) resp th) (topMax (q.scoring.getD {}))
       else
         match q.scoring with
         | none => .ok ⟨0, 1⟩
         | some s => mapOk (fun m => ⟨0, m⟩) (topMax s)) := by
  obtain ⟨at_, sc?, opts⟩ := q
  rcases sc? with _ | s
  · rfl
  · simp only [partsTruthy, scoringPartsTruthy] at hp
    rcases hps : s.parts with _ | l
    · simp [grade, hps]
    · rcases l with _ | ⟨pr, rest⟩
      · simp [grade, hps]
      · rw [hps] at hp; simp at hp

/-- When `scoring.get("parts")` is a non-empty list, grading is the mapped
per-part loop. -/
theorem grade_parts_dispatch (env : GradeEnv) (q : Question)
    (resp : List ResponsePart) (pr : PartRule) (rest : List PartRule)
    (hp : (q.scoring.getD {}).parts = some (pr :: rest)) :
    grade env q resp =
      (match gradePartsAux env (pr :: rest) resp with
       | .error e => .error e
       | .ok sm => .ok ⟨sm.1, sm.2⟩) := by
  simp [grade, hp]

/-- Bounds for a full-credit-or-zero grader fed through `topMax`. -/
theorem bounds_via_topMax (sc0 : Scoring) (g : Rat → GradingResult)
    (r : GradingResult) (hg : ∀ m, g m = ⟨m, m⟩ ∨ g m = ⟨0, m⟩)
    (hmn : ∀ m, topMax sc0 = .ok m → 0 ≤ m)
    (h : mapOk g (topMax sc0) = .ok r) :
    0 ≤ r.score ∧ 0 ≤ r.max_score ∧ (0 < r.max_score → r.score ≤ r.max_score) := by
  rcases htm : topMax sc0 with e | m <;> rw [htm] at h
  · simp [mapOk] at h
  · simp only [mapOk] at h
    cases h
    exact bounds_of_full_or_zero (g m) m (hmn m htm) (hg m)

/-- C1 (amended): whenever grading returns a result and every scoring
constant it adds (option weights, per-rule max scores, the top-level max
score) is nonnegative, the result satisfies `0 ≤ score`, `0 ≤ max_score`,
and `score ≤ max_score` whenever `max_score > 0`, in every branch. -/
theorem grading_bounds (env : GradeEnv) (q : Question) (resp : List ResponsePart)
    (r : GradingResult) (hn : questionNonneg q = true)
    (h : grade env q resp = .ok r) :
    0 ≤ r.score ∧ 0 ≤ r.max_score ∧ (0 < r.max_score → r.score ≤ r.max_score) := by
  unfold questionNonneg at hn
  rw [Bool.and_eq_true] at hn
  obtain ⟨hw, hrest⟩ := hn
  have hm_nn : ∀ m : Rat, topMax (q.scoring.getD {}) = .ok m → 0 ≤ m := by
    intro m hm
    rcases hq : q.scoring with _ | s
    · rw [hq] at hm
      rw [show topMax ((none : Option Scoring).getD {}) = .ok 1 from rfl] at hm
      cases hm
      norm_num
    · rw [hq] at hm
      simp only [hq] at hrest
      rw [Bool.and_eq_true] at hrest
      have h1 := hrest.1
      unfold maxLitNonneg at h1
      unfold topMax at hm
      simp only [Option.getD_some] at hm
      rcases htd : (s.max_score.getD (NumLit.num 1)).toDec with _ | m2 <;>
        simp only [htd] at hm h1
      · cases hm
      · cases hm
        simpa using h1
  by_cases hpt : partsTruthy q.scoring = true
  · rcases hq : q.scoring with _ | s
    · rw [hq] at hpt; simp [partsTruthy] at hpt
    · rcases hps : s.parts with _ | l
      · rw [hq] at hpt; simp [partsTruthy, scoringPartsTruthy, hps] at hpt
      · rcases l with _ | ⟨pr, rest⟩
        · rw [hq] at hpt; simp [partsTruthy, scoringPartsTruthy, hps] at hpt
        · have hd := grade_parts_dispatch env q resp pr rest
            (by rw [hq]; simp only [Option.getD_some]; exact hps)
          rw [hd] at h
          rcases hga : gradePartsAux env (pr :: rest) resp with e | sm <;>
            simp only [hga] at h
          · cases h
          · cases h
            have hnn : rulesMaxNonneg (pr :: rest) = true := by
              simp only [hq] at hrest
              rw [Bool.and_eq_true] at hrest
              have h2 := hrest.2
              simp only [hps] at h2
              exact h2
            have hb := gradePartsAux_bounds env (pr :: rest) resp sm hnn hga
            exact ⟨hb.1, le_trans hb.1 hb.2, fun _ => hb.2⟩
  · rw [Bool.not_eq_true] at hpt
    rw [grade_dispatch env q resp hpt] at h
    by_cases h1 : q.answer_type = "options"
    · rw [if_pos h1] at h
      cases h
      have hb := gradeOptions_bounds q.options resp hw
      refine ⟨?_, ?_, fun _ => ?_⟩ <;> rw [gradeOptions_sums]
      · exact hb.1
      · exact hb.2.2
      · exact hb.2.1
    · rw [if_neg h1] at h
      by_cases h2 : q.answer_type = "text"
      · rw [if_pos h2] at h
        exact bounds_via_topMax _ _ r (gradeText_cases _ resp) hm_nn h
      · rw [if_neg h2] at h
        by_cases h3 : q.answer_type = "numeric"
        · rw [if_pos h3] at h
          exact bounds_via_topMax _ _ r (gradeNumeric_cases _ resp) hm_nn h
        · rw [if_neg h3] at h
          by_cases h4 : q.answer_type = "match"
          · rw [if_pos h4] at h
            exact bounds_via_topMax _ _ r (gradeMatch_cases _ resp) hm_nn h
          · rw [if_neg h4] at h
            by_cases h5 : q.answer_type = "regex"
            · rw [if_pos h5] at h
              exact bounds_via_topMax _ _ r (gradeRegex_cases env _ resp) hm_nn h
            · rw [if_neg h5] at h
              by_cases h6 : q.answer_type = "fuzzy"
              · rw [if_pos h6] at h
                rcases htd : (((q.scoring.getD {}).threshold.getD
                    (NumLit.num (4/5))).toDec) with _ | th <;> simp only [htd] at h
                · cases h
                · exact bounds_via_topMax _ _ r (gradeFuzzy_cases env _ resp th) hm_nn h
              · rw [if_neg h6] at h
                rcases hq : q.scoring with _ | s <;> simp only [hq] at h
                · cases h
                  exact ⟨le_refl 0, by norm_num, fun _ => by norm_num⟩
                · refine bounds_via_topMax s _ r (fun m => Or.inr rfl) ?_ h
                  intro m hm
                  exact hm_nn m (by rw [hq]; exact hm)

/-- C1 witness: the bounds at the options example (score 2 of max 2). -/
theorem grading_bounds_witness :
    0 ≤ (GradingResult.mk 2 2).score ∧ 0 ≤ (GradingResult.mk 2 2).max_score ∧
      (0 < (GradingResult.mk 2 2).max_score →
        (GradingResult.mk 2 2).score ≤ (GradingResult.mk 2 2).max_score) := by
  apply grading_bounds env0 qOptionsAB respSelB ⟨2, 2⟩
  · norm_num [questionNonneg, weightsNonneg, weightNonnegB, qOptionsAB]
  · norm_num [grade, qOptionsAB, respSelB, gradeOptions, selectedIds, weightOr1]

/-- C5 (amended): grading never raises provided the scoring literals the
code converts outside any `try` (`max_score` everywhere, the fuzzy
`threshold`, the per-rule `max_score`s) all convert; and a question with an
unrecognized answer type and no scoring at all grades to score 0, max 1. -/
theorem grading_totality (env : GradeEnv) (q : Question)
    (resp : List ResponsePart) (hp : scoringParses q.scoring = true) :
    (∃ r, grade env q resp = .ok r) ∧
    grade env ⟨"mystery", none, []⟩ resp = .ok ⟨0, 1⟩ := by
  refine ⟨?_, rfl⟩
  have htm : ∃ m, topMax (q.scoring.getD {}) = .ok m := by
    rcases hq : q.scoring with _ | s
    · exact ⟨1, rfl⟩
    · rw [hq] at hp
      simp only [scoringParses] at hp
      rw [Bool.and_eq_true, Bool.and_eq_true] at hp
      have hA := hp.1.1
      rcases htd : (s.max_score.getD (NumLit.num 1)).toDec with _ | m
      · rw [htd] at hA; simp at hA
      · refine ⟨m, ?_⟩
        simp only [Option.getD_some]
        unfold topMax
        simp only [htd]
  have hth : ∃ th, (((q.scoring.getD {}).threshold.getD
      (NumLit.num (4/5))).toDec) = some th := by
    rcases hq : q.scoring with _ | s
    · exact ⟨4/5, rfl⟩
    · rw [hq] at hp
      simp only [scoringParses] at hp
      rw [Bool.and_eq_true, Bool.and_eq_true] at hp
      have hB := hp.1.2
      rcases htd : (s.threshold.getD (NumLit.num (4/5))).toDec with _ | th
      · rw [htd] at hB; simp at hB
      · refine ⟨th, ?_⟩
        simp only [Option.getD_some]
        exact htd
  by_cases hpt : partsTruthy q.scoring = true
  · rcases hq : q.scoring with _ | s
    · rw [hq] at hpt; simp [partsTruthy] at hpt
    · rcases hps : s.parts with _ | l
      · rw [hq] at hpt; simp [partsTruthy, scoringPartsTruthy, hps] at hpt
      · rcases l with _ | ⟨pr, rest⟩
        · rw [hq] at hpt; simp [partsTruthy, scoringPartsTruthy, hps] at hpt
        · have hall : (pr :: rest).all ruleParses = true := by
            rw [hq] at hp
            simp only [scoringParses] at hp
            rw [Bool.and_eq_true, Bool.and_eq_true] at hp
            have h3 := hp.2
            simp only [hps] at h3
            exact h3
          obtain ⟨sm, hsm⟩ := gradePartsAux_isOk env (pr :: rest) resp hall
          refine ⟨⟨sm.1, sm.2⟩, ?_⟩
          rw [grade_parts_dispatch env q resp pr rest
            (by rw [hq]; simp only [Option.getD_some]; exact hps)]
          simp only [hsm]
  · rw [Bool.not_eq_true] at hpt
    obtain ⟨m, hm⟩ := htm
    by_cases h1 : q.answer_type = "options"
    · exact ⟨gradeOptions q.options resp,
        by rw [grade_dispatch env q resp hpt, if_pos h1]⟩
    · by_cases h2 : q.answer_type = "text"
      · refine ⟨gradeText (q.scoring.getD {}) resp m, ?_⟩
        rw [grade_dispatch env q resp hpt, if_neg h1, if_pos h2, hm]
        rfl
      · by_cases h3 : q.answer_type = "numeric"
        · refine ⟨gradeNumeric (q.scoring.getD {}) resp m, ?_⟩
          rw [grade_dispatch env q resp hpt, if_neg h1, if_neg h2, if_pos h3, hm]
          rfl
        · by_cases h4 : q.answer_type = "match"
          · refine ⟨gradeMatch (q.scoring.getD {}) resp m, ?_⟩
            rw [grade_dispatch env q resp hpt, if_neg h1, if_neg h2, if_neg h3,
              if_pos h4, hm]
            rfl
          · by_cases h5 : q.answer_type = "regex"
            · refine ⟨gradeRegex env (q.scoring.getD {}) resp m, ?_⟩
              rw [grade_dispatch env q resp hpt, if_neg h1, if_neg h2, if_neg h3,
                if_neg h4, if_pos h5, hm]
              rfl
            · by_cases h6 : q.answer_type = "fuzzy"
              · obtain ⟨th, hthv⟩ := hth
                refine ⟨gradeFuzzy env (q.scoring.getD {}) resp th m, ?_⟩
                rw [grade_dispatch env q resp hpt, if_neg h1, if_neg h2, if_neg h3,
                  if_neg h4, if_neg h5, if_pos h6]
                simp only [hthv, hm]
                rfl
              · rcases hq : q.scoring with _ | s
                · refine ⟨⟨0, 1⟩, ?_⟩
                  rw [grade_dispatch env q resp hpt, if_neg h1, if_neg h2, if_neg h3,
                    if_neg h4, if_neg h5, if_neg h6]
                  simp only [hq]
                · rw [hq] at hm
                  simp only [Option.getD_some] at hm
                  refine ⟨⟨0, m⟩, ?_⟩
                  rw [grade_dispatch env q resp hpt, if_neg h1, if_neg h2, if_neg h3,
                    if_neg h4, if_neg h5, if_neg h6]
                  simp only [hq]
                  rw [hm]
                  rfl

/-- C5 witness: a text question accepting `yes`, answered with padded
differently-cased text, grades without raising; and the unknown-type,
no-scoring question grades to score 0, max 1. -/
theorem grading_totality_witness :
    (∃ r, grade env0 qTextYes respYes = .ok r) ∧
    grade env0 ⟨"mystery", none, []⟩ respYes = .ok ⟨0, 1⟩ :=
  grading_totality env0 qTextYes respYes (by decide)

/-- Reading back after a write: the written key gets the new row, other keys
are untouched. -/
theorem getRow_setRow (k : StatsKey) (row : StatsRow) :
    ∀ (tbl : StatsTable) (k2 : StatsKey),
      getRow (setRow tbl k row) k2 = if k2 = k then some row else getRow tbl k2 := by
  intro tbl
  induction tbl with
  | nil =>
    intro k2
    simp only [setRow, getRow]
    by_cases h : k = k2
    · rw [if_pos h, if_pos h.symm]
    · rw [if_neg h, if_neg (fun h2 => h h2.symm)]
  | cons e rest ih =>
    intro k2
    simp only [setRow]
    by_cases h : e.1 = k
    · rw [if_pos h]
      simp only [getRow]
      by_cases h2 : k = k2
      · rw [if_pos h2, if_pos h2.symm]
      · rw [if_neg h2, if_neg (fun hx => h2 hx.symm),
          if_neg (fun hx : e.1 = k2 => h2 (h.symm.trans hx))]
    · rw [if_neg h]
      simp only [getRow]
      by_cases h2 : e.1 = k2
      · rw [if_pos h2, if_neg (fun hx : k2 = k => h (h2.trans hx)), if_pos h2]
      · rw [if_neg h2, if_neg h2, ih k2]

/-- The upsert always records exactly one more attempt than was stored. -/
theorem upsertRow_attempted (s m : Rat) (o : Option StatsRow) :
    (upsertRow s m o).questions_attempted =
      some ((match o with
             | some ex => ex.questions_attempted.getD 0
             | none => 0) + 1) := by
  rcases o with _ | ex
  · rfl
  · rfl

/-- One upsert bumps the attempted count at its own key by one and leaves
every other key unchanged. -/
theorem attemptedAt_upsertInto (s m : Rat) (tbl : StatsTable) (k k2 : StatsKey) :
    attemptedAt (upsertInto s m tbl k) k2 =
      attemptedAt tbl k2 + (if k2 = k then 1 else 0) := by
  unfold upsertInto
  by_cases h : k2 = k
  · rw [if_pos h, h]
    unfold attemptedAt
    rw [getRow_setRow, if_pos rfl]
    show (upsertRow s m (getRow tbl k)).questions_attempted.getD 0 = _
    rw [upsertRow_attempted]
    simp only [Option.getD_some]
  · rw [if_neg h, add_zero]
    unfold attemptedAt
    rw [getRow_setRow, if_neg h]

/-- The ancestor loop adds exactly the number of occurrences of a key among
the visited ancestors. -/
theorem attemptedAt_applyAncestors (u : String) (s m : Rat) :
    ∀ (ancs : List TaxNode) (tbl : StatsTable) (k : StatsKey),
      attemptedAt (applyAncestors u s m tbl ancs) k =
        attemptedAt tbl k + ancs.countP (fun a => decide ((u, a.id) = k)) := by
  intro ancs
  induction ancs with
  | nil => intro tbl k; simp [applyAncestors]
  | cons a rest ih =>
    intro tbl k
    rw [show applyAncestors u s m tbl (a :: rest)
        = applyAncestors u s m (upsertInto s m tbl (u, a.id)) rest from rfl]
    rw [ih (upsertInto s m tbl (u, a.id)) k, attemptedAt_upsertInto,
      List.countP_cons]
    by_cases h : (u, a.id) = k
    · rw [if_pos h.symm, decide_eq_true h, if_pos rfl]
      omega
    · rw [if_neg (fun hx => h hx.symm), decide_eq_false h]
      simp

/-- Processing a list of links adds, per link, the occurrences of the key's
node in that link's ancestor chain. -/
theorem attemptedAt_updateLinks (env : TaxEnv) (fuel : Nat) (u : String)
    (s m : Rat) (t : String) :
    ∀ (links : List String) (tbl tbl2 : StatsTable),
      updateLinks env fuel u s m links tbl = some tbl2 →
      attemptedAt tbl2 (u, t) = attemptedAt tbl (u, t) +
        (links.map (fun tid =>
          match walkFrom env.node fuel (env.node tid) with
          | some ancs => ancs.countP (fun a => a.id == t)
          | none => 0)).sum := by
  intro links
  induction links with
  | nil =>
    intro tbl tbl2 h
    simp only [updateLinks, Option.some.injEq] at h
    rw [← h]
    simp
  | cons tid rest ih =>
    intro tbl tbl2 h
    simp only [updateLinks] at h
    rcases hw : walkFrom env.node fuel (env.node tid) with _ | ancs <;>
      simp only [hw] at h
    · cases h
    · have h2 := ih (applyAncestors u s m tbl ancs) tbl2 h
      rw [h2, attemptedAt_applyAncestors]
      have hcnt : ancs.countP (fun a => decide ((u, a.id) = (u, t)))
          = ancs.countP (fun a => a.id == t) := by
        apply List.countP_congr
        intro a _
        simp [Prod.ext_iff]
      rw [hcnt]
      simp only [List.map_cons, List.sum_cons, hw]
      omega

/-- C9: one call of `update_user_taxonomy_stats` increments
`questions_attempted` at `(user, t)` by exactly the number of occurrences of
node `t` across the ancestor chains of the question's tagged nodes. -/
theorem stats_attempted_occurrence_count (env : TaxEnv) (fuel : Nat)
    (u qid : String) (s m : Rat) (tbl tbl2 : StatsTable) (hu : u ≠ "")
    (h : updateUserTaxonomyStats env fuel u qid s m tbl = some tbl2)
    (t : String) :
    attemptedAt tbl2 (u, t) = attemptedAt tbl (u, t) + chainOccurrences env fuel qid t := by
  unfold updateUserTaxonomyStats at h
  rw [if_neg hu] at h
  exact attemptedAt_updateLinks env fuel u s m t (env.links qid) tbl tbl2 h

/-- C9 witness: a question tagged with two sibling leaves under one parent,
graded once, increments the shared parent's attempted count by 2 (once per
chain) and each leaf's by 1. -/
theorem stats_attempted_occurrence_count_witness :
    attemptedAt tblSiblings ("u", "P") = 2 ∧
    attemptedAt tblSiblings ("u", "L1") = 1 ∧
    attemptedAt tblSiblings ("u", "L2") = 1 := by
  have hP := stats_attempted_occurrence_count env9 3 "u" "q" 1 1 [] tblSiblings
    (by decide) rfl "P"
  have hL1 := stats_attempted_occurrence_count env9 3 "u" "q" 1 1 [] tblSiblings
    (by decide) rfl "L1"
  have hL2 := stats_attempted_occurrence_count env9 3 "u" "q" 1 1 [] tblSiblings
    (by decide) rfl "L2"
  refine ⟨hP.trans (by decide), hL1.trans (by decide), hL2.trans (by decide)⟩

end UGC
